import Mathlib

/-!
Verification of the core numeric pipeline of the trainer service
(`python_trainer.py`): numeric shape-function interpolation, curve
resampling, contribution evaluation, intercept calibration, metrics,
partial assembly and the refit control flow.

Python floats are modelled by exact arithmetic: `Rat` for the pure
list-processing code and `Real` for the code that uses `exp` and `sqrt`.
Python `sorted` with a key is a stable sort; `List.insertionSort` on the
key relation is also stable, hence produces the identical permutation.
-/

namespace Trainer

/-! ### Numeric interpolation and resampling (lines 72-162 of
`python_trainer.py`) -/

/-- Denominator floor used by `interpolate_numeric` (source: `1e-9`, line 91). -/
def epsDen : ℚ := 1 / 1000000000

/-- Inner loop of `interpolate_numeric` (lines 88-92): scan the sorted knots
for the first x at or above `v` (`hi`), take the preceding knot (`lo`) and
interpolate linearly with `t = (v - x_lo) / max(1e-9, x_hi - x_lo)`.
The empty case is unreachable because the caller clamps at the last knot. -/
def interpScan (p : ℚ × ℚ) (tl : List (ℚ × ℚ)) (v : ℚ) : ℚ :=
  match tl with
  | [] => p.2
  | q :: rest =>
    if v ≤ q.1 then
      let t := (v - p.1) / max epsDen (q.1 - p.1)
      p.2 * (1 - t) + q.2 * t
    else interpScan q rest v

/-- Per-value evaluation of a sorted numeric curve (lines 81-92): clamp at or
below the first knot to the first y, clamp at or above the last knot to the
last y, otherwise interpolate inside the bracketing interval. -/
def interpSorted (ps : List (ℚ × ℚ)) (v : ℚ) : ℚ :=
  match ps with
  | [] => 0
  | p :: tl =>
    if v ≤ p.1 then p.2
    else
      let lastKnot := (p :: tl).getLast (List.cons_ne_nil p tl)
      if lastKnot.1 ≤ v then lastKnot.2
      else interpScan p tl v

/-- Line 78: `pairs = sorted(zip(list(xs), list(ys)), key=lambda p: p[0])`.
Python `zip` truncates to the shorter list, as `List.zip` does, and Python
`sorted` is stable, as `List.insertionSort` on the key relation is. -/
def sortPairsByX (xs ys : List ℚ) : List (ℚ × ℚ) :=
  List.insertionSort (fun a b : ℚ × ℚ => a.1 ≤ b.1) (xs.zip ys)

/-- `interpolate_numeric(values, xs, ys)` (lines 72-93). The `None` guard of
lines 74-75 is vacuous here because both callers pass real lists (the dict
lookups default to `[]`); the guard of lines 76-77 returns all zeros on an
empty or length-mismatched curve. -/
def interpolate_numeric (values xs ys : List ℚ) : List ℚ :=
  if xs.length = 0 ∨ ys.length = 0 ∨ xs.length ≠ ys.length then
    values.map (fun _ => 0)
  else
    values.map (interpSorted (sortPairsByX xs ys))

/-- `np.linspace(a, b, n)` restricted to how the source uses it (line 153):
`n` evenly spaced points from `a` to `b` inclusive; exact in `Rat`. -/
def linspace (a b : ℚ) (n : ℕ) : List ℚ :=
  (List.range n).map (fun i : ℕ => a + (i : ℚ) * ((b - a) / ((n : ℚ) - 1)))

/-- Core of `normalize_numeric_shape_points` for one numeric shape function
(lines 138-154): truncate to `pair_count` pairs (Python `zip` semantics),
sort by x, build the target grid (a single knot at the minimum when
`num_points <= 1`, otherwise `linspace(min_x, max_x, num_points)`) and
evaluate the piecewise-linear interpolant there. -/
def resample_numeric (xs ys : List ℚ) (num_points : ℕ) : List ℚ × List ℚ :=
  let pairs := sortPairsByX xs ys
  let xs_sorted := pairs.map Prod.fst
  let ys_sorted := pairs.map Prod.snd
  let min_x := xs_sorted.headD 0
  let max_x := xs_sorted.getLastD 0
  let target_x := if num_points ≤ 1 then [min_x] else linspace min_x max_x num_points
  (target_x, interpolate_numeric target_x xs_sorted ys_sorted)

/-- Strict ordering of knots by x position (the spec data-model invariant:
numeric x has no duplicate values after sorting). -/
def KnotLT (a b : ℚ × ℚ) : Prop := a.1 < b.1

/-- Adjacent knots separated by at least the denominator floor `1e-9`. -/
def KnotGap (a b : ℚ × ℚ) : Prop := a.1 + epsDen ≤ b.1

/-! ### Contribution evaluation (`evaluate_contribs`, lines 96-120)

Python feature values are either strings (category labels) or floats.  The
label type is kept generic: `PyVal.cat` plays the role of the string test of
line 110 and `PyVal.num` the role of a numeric value.  Errors that the
Python code can raise (an out-of-range negative list index, comparing a
string with a float) are modelled with `Except`. -/

inductive PyErr where
  | indexError
  | typeError
deriving DecidableEq

inductive PyVal (α : Type) where
  | cat (label : α)
  | num (q : ℚ)
deriving DecidableEq

inductive ShapeFn (α : Type) where
  | empty
  | categorical (x : List α) (y : List ℚ)
  | numerical (x : List ℚ) (y : List ℚ)
deriving DecidableEq

/-- Python `round` on an exact rational: round half to even (used by
`int(round(v))` on line 113). -/
def roundHalfEven (q : ℚ) : ℤ :=
  let f := ⌊q⌋
  let r := q - (f : ℚ)
  if r < 1/2 then f
  else if 1/2 < r then f + 1
  else if f % 2 = 0 then f else f + 1

/-- Python list indexing `l[idx]` with wrap-around for negative indices in
`[-len, -1]` and `IndexError` otherwise. -/
def pyIndex {α : Type} [Inhabited α] (l : List α) (idx : ℤ) : Except PyErr α :=
  if 0 ≤ idx ∧ idx < (l.length : ℤ) then Except.ok (l.getD idx.toNat default)
  else if -(l.length : ℤ) ≤ idx ∧ idx < 0 then
    Except.ok (l.getD ((l.length : ℤ) + idx).toNat default)
  else Except.error PyErr.indexError

/-- The dict comprehension of line 107 building the label-to-value mapping
from `cats` and `vals`, where index `i` maps `cats i` to `vals i` if
`i < len(vals)` and to `0.0` otherwise.  On duplicate labels the later index
wins, so the recursive lookup prefers the tail. -/
def lookupCat {α : Type} [DecidableEq α] : List α → List ℚ → α → Option ℚ
  | [], _, _ => none
  | cat :: cs, [], c =>
    match lookupCat cs [] c with
    | some w => some w
    | none => if c = cat then some 0 else none
  | cat :: cs, v :: vs, c =>
    match lookupCat cs vs c with
    | some w => some w
    | none => if c = cat then some v else none

/-- One categorical contribution (lines 109-115): a string value is used as
the label directly; a numeric value is rounded to an integer index into the
supplied `categories` list (`None` when that list is falsy or the index is at
or above its length; note the guard never rejects negative indices); an
unresolved label contributes `0.0`. -/
def catContrib {α : Type} [DecidableEq α] [Inhabited α] (cats : List α)
    (ys : List ℚ) (categories : Option (List α)) (v : PyVal α) : Except PyErr ℚ :=
  match v with
  | .cat s => Except.ok ((lookupCat cats ys s).getD 0)
  | .num q =>
    let idx := roundHalfEven q
    let cname : Except PyErr (Option α) :=
      match categories with
      | some cl =>
        if cl ≠ [] ∧ idx < (cl.length : ℤ) then (pyIndex cl idx).map some
        else Except.ok none
      | none => Except.ok none
    cname.map (fun c? =>
      match c? with
      | some c => (lookupCat cats ys c).getD 0
      | none => 0)

/-- Sequential effectful map mirroring the Python result-list loop: the first
raised error aborts the whole call. -/
def mapExcept {β : Type} (f : β → Except PyErr ℚ) : List β → Except PyErr (List ℚ)
  | [] => Except.ok []
  | b :: bs =>
    match f b with
    | Except.error e => Except.error e
    | Except.ok q => (mapExcept f bs).map (fun qs => q :: qs)

/-- `evaluate_contribs(shape_fn, feat_values, categories)` (lines 96-120).
An empty shape function yields all-zero contributions; the categorical branch
looks labels up per value; the numeric branch returns all zeros on an empty
or mismatched curve (before any value is inspected, hence even for string
values) and otherwise interpolates, where a string value would raise a
`TypeError` in the float comparison of the scan. -/
def evaluate_contribs {α : Type} [DecidableEq α] [Inhabited α] (sf : ShapeFn α)
    (vals : List (PyVal α)) (categories : Option (List α)) :
    Except PyErr (List ℚ) :=
  match sf with
  | .empty => Except.ok (vals.map (fun _ => 0))
  | .categorical cats ys => mapExcept (catContrib cats ys categories) vals
  | .numerical xs ys =>
    if xs.length = 0 ∨ ys.length = 0 ∨ xs.length ≠ ys.length then
      Except.ok (vals.map (fun _ => 0))
    else
      (mapExcept (fun v =>
        match v with
        | PyVal.num q => Except.ok q
        | PyVal.cat _ => Except.error PyErr.typeError) vals).map
        (fun qs => interpolate_numeric qs xs ys)

/-! ### Numeric partial assembly (lines 395-409)

The continuous-feature branch of the partials loop copies the (already
resampled) shape-function x and y lists straight into the editable axes and
leaves `gridX` and `curve` empty.  A categorical-datatype shape never
reaches this branch in the pipeline because the branch is guarded by the key
not being in `cat_info`. -/

structure PartialRecord where
  editableX : List ℚ
  editableY : List ℚ
  gridX : List ℚ
  curve : List ℚ
  scatterX : List ℚ
deriving DecidableEq

/-- `shape_fn.get(&quot;x&quot;, [])` for the numeric branch. -/
def shapeNumX {α : Type} : ShapeFn α → List ℚ
  | .numerical x _ => x
  | _ => []

/-- `shape_fn.get(&quot;y&quot;, [])` for the numeric branch. -/
def shapeNumY {α : Type} : ShapeFn α → List ℚ
  | .numerical _ y => y
  | _ => []

/-- The numeric-feature partial of lines 395-409: editable axes come directly
from the shape function, `gridX` and `curve` are empty, scatter is the raw
observed feature values of the split. -/
def build_numeric_partial_record {α : Type} (sf : ShapeFn α) (scatter : List ℚ) :
    PartialRecord :=
  { editableX := shapeNumX sf
    editableY := shapeNumY sf
    gridX := []
    curve := []
    scatterX := scatter }

/-- Modelled from the claim wording only (not from the source, which has no
such fallback): an editable axis that is a uniform grid spanning `lo` to
`hi`. Used to state the C5 counterexample. -/
def isUniformGridSpanning (xs : List ℚ) (lo hi : ℚ) : Prop :=
  xs ≠ [] ∧ xs.headD 0 = lo ∧ xs.getLastD 0 = hi ∧
    ∀ i : ℕ, i + 1 < xs.length →
      xs.getD (i + 1) 0 - xs.getD i 0 = (hi - lo) / ((xs.length : ℚ) - 1)

/-! ### Train and refit control flow (`build_train_response`, lines 213-290)

The observable order of the effectful steps of one request, as an event
trace: dataset validation, the initial `fit` (line 265), the edited-partials
block (lines 267-282, with the model-variant check and, inside
`_apply_edited_partials_to_interactive_model`, the GAM-presence check), the
optional `continue_fit`, the optional shape centering (lines 284-290) and
the final response.  `HTTPException` aborts the trace at the point it is
raised. -/

inductive Step where
  | fitStep
  | httpError (code : ℕ)
  | applyEditsStep
  | continueFitStep
  | centerStep
  | respondStep
deriving DecidableEq

def igannName : String := "igann"

def igannInteractiveName : String := "igann_interactive"

def validDatasets : List String := ["bike_hourly", "adult_income", "breast_cancer"]

/-- Line 223: an unknown model type silently falls back to basic `igann`. -/
def normalize_model_type (raw : String) : String :=
  if raw = igannName ∨ raw = igannInteractiveName then raw else igannName

/-- Lines 284-290 followed by the successful response. -/
def centerRespondSteps (mt : String) (center_shapes : Bool) : List Step :=
  if center_shapes then
    if mt ≠ igannInteractiveName then [Step.httpError 400]
    else [Step.centerStep, Step.respondStep]
  else [Step.respondStep]

/-- Event trace of `build_train_response`.  `edited_partials` is abstracted
to its list of entries (only emptiness is inspected at this level), `hasGAM`
models `getattr(igann, &quot;GAM&quot;, None) is not None` and `canContinueFit`
models `hasattr(igann, &quot;continue_fit&quot;)`. -/
def build_train_steps (dataset raw_mt : String) (center_shapes : Bool)
    (edited_partials : List Unit) (hasGAM : Bool) (canContinueFit : Bool)
    (refit_estimators : ℤ) : List Step :=
  if dataset ∉ validDatasets then [Step.httpError 400]
  else
    let mt := normalize_model_type raw_mt
    Step.fitStep ::
      (if edited_partials ≠ [] then
        if mt ≠ igannInteractiveName then [Step.httpError 400]
        else if ¬ hasGAM then [Step.httpError 400]
        else
          Step.applyEditsStep ::
            ((if canContinueFit ∧ 0 < refit_estimators then [Step.continueFitStep]
              else []) ++ centerRespondSteps mt center_shapes)
      else centerRespondSteps mt center_shapes)

/-! ### Intercept calibration, regression branch (lines 360-363), and
metrics (lines 292-305).  These use `Real` because the source mixes them
with `sqrt` and `exp`. -/

/-- `np.mean` of a list. -/
noncomputable def mean (l : List ℝ) : ℝ := l.sum / l.length

/-- Line 361: `float(np.mean(y_train - total_train)) if len(y_train) else 0.0`. -/
noncomputable def regression_intercept (y_train total_train : List ℝ) : ℝ :=
  if y_train.length ≠ 0 then mean (List.zipWith (fun a b => a - b) y_train total_train)
  else 0

/-- Line 362: `preds_train = total_train + intercept_val`. -/
def regression_predictions (total_train : List ℝ) (c : ℝ) : List ℝ :=
  total_train.map (fun a => a + c)

inductive TaskKind where
  | classification
  | regression
deriving DecidableEq

/-- The metrics record of `calc_metrics`: the classification dict carries
only `acc` and `count`, the regression dict only `rmse`, `r2` and `count`,
and the empty-input dict nulls everything; absent keys are `none`. -/
structure Metrics where
  rmse : Option ℝ
  r2 : Option ℝ
  acc : Option ℝ
  count : ℕ

/-- `np.sum((y_true - y_pred) ** 2)` (line 304). -/
noncomputable def ss_res (y_true y_pred : List ℝ) : ℝ :=
  (List.zipWith (fun a b => (a - b) ^ 2) y_true y_pred).sum

/-- `np.sum((y_true - mean_y) ** 2)` (line 303). -/
noncomputable def ss_tot (y_true : List ℝ) : ℝ :=
  (y_true.map (fun a => (a - mean y_true) ^ 2)).sum

/-- `calc_metrics` (lines 292-305): empty input nulls everything with count
0; classification thresholds both vectors at 0.5 and reports the match rate;
regression reports `rmse = sqrt(mean((y-p)^2))` and
`r2 = 1 - ss_res / ss_tot` guarded to `0.0` when `ss_tot == 0`. -/
noncomputable def calc_metrics (task : TaskKind) (y_true y_pred : List ℝ) :
    Metrics :=
  if y_true.length = 0 then ⟨none, none, none, 0⟩
  else
    match task with
    | .classification =>
      ⟨none, none,
        some (mean (List.zipWith
          (fun a b => if (((1 : ℝ)/2 ≤ a) ↔ ((1 : ℝ)/2 ≤ b)) then (1 : ℝ) else 0)
          y_true y_pred)),
        y_true.length⟩
    | .regression =>
      ⟨some (Real.sqrt (mean (List.zipWith (fun a b => (a - b) ^ 2) y_true y_pred))),
        some (if ss_tot y_true ≠ 0 then 1 - ss_res y_true y_pred / ss_tot y_true else 0),
        none, y_true.length⟩

/-! ### Intercept calibration, classification branch (lines 345-359)

Forty bisection iterations over the bracket `[-12, 12]`, each comparing the
mean of `sigmoid(total_train + mid)` against the clamped train-target mean;
the returned intercept is the midpoint of the final bracket. -/

/-- `1 / (1 + np.exp(-x))` (lines 352 and 358). -/
noncomputable def sigmoid (x : ℝ) : ℝ := 1 / (1 + Real.exp (-x))

/-- `float(np.mean(1 / (1 + np.exp(-(total_train + c)))))`. -/
noncomputable def meanProb (total_train : List ℝ) (c : ℝ) : ℝ :=
  mean (total_train.map (fun a => sigmoid (a + c)))

/-- Lines 347-348: the train-target mean (0 for an empty split) clamped into
`[1e-4, 1 - 1e-4]`. -/
noncomputable def clampTargetMean (y_train : List ℝ) : ℝ :=
  min (max (if y_train.length ≠ 0 then mean y_train else 0) (1/10000)) (1 - 1/10000)

/-- One bisection iteration (lines 350-356). -/
noncomputable def bisectStep (total_train : List ℝ) (t : ℝ) (lh : ℝ × ℝ) : ℝ × ℝ :=
  let mid := (lh.1 + lh.2) / 2
  if meanProb total_train mid < t then (mid, lh.2) else (lh.1, mid)

/-- The `for _ in range(n)` loop over the bracket (lines 349-356). -/
noncomputable def bisectIter (total_train : List ℝ) (t : ℝ) : ℕ → ℝ × ℝ → ℝ × ℝ
  | 0, lh => lh
  | n + 1, lh => bisectIter total_train t n (bisectStep total_train t lh)

/-- Lines 349-357: 40 iterations from `(-12, 12)` and the final midpoint. -/
noncomputable def classification_intercept (total_train y_train : List ℝ) : ℝ :=
  ((bisectIter total_train (clampTargetMean y_train) 40 (-12, 12)).1 +
    (bisectIter total_train (clampTargetMean y_train) 40 (-12, 12)).2) / 2

/-! ### Lemmas and claim theorems -/

lemma epsDen_pos : 0 < epsDen := by norm_num [epsDen]

lemma KnotGap.lt {a b : ℚ × ℚ} (h : KnotGap a b) : KnotLT a b :=
  lt_of_lt_of_le (lt_add_of_pos_right a.1 epsDen_pos) h

lemma pairwise_lt_of_gap {ps : List (ℚ × ℚ)} (h : ps.Pairwise KnotGap) :
    ps.Pairwise KnotLT :=
  h.imp (fun hab => hab.lt)

lemma fst_mono_of_pairwise_lt {ps : List (ℚ × ℚ)} (hs : ps.Pairwise KnotLT)
    {i j : ℕ} (hi : i < ps.length) (hj : j < ps.length) (hij : i ≤ j) :
    ps[i].1 ≤ ps[j].1 := by
  rcases lt_or_eq_of_le hij with h | h
  · exact le_of_lt (List.pairwise_iff_getElem.mp hs i j hi hj h)
  · subst h; rfl

lemma sortPairsByX_eq_self {xs ys : List ℚ}
    (h : (xs.zip ys).Pairwise (fun a b : ℚ × ℚ => a.1 ≤ b.1)) :
    sortPairsByX xs ys = xs.zip ys :=
  List.Sorted.insertionSort_eq h

lemma sortPairs_map_eq_self {ps : List (ℚ × ℚ)} (hs : ps.Pairwise KnotLT) :
    sortPairsByX (ps.map Prod.fst) (ps.map Prod.snd) = ps := by
  have hzip : (ps.map Prod.fst).zip (ps.map Prod.snd) = ps := by
    have := List.zip_unzip ps
    rwa [List.unzip_eq_map] at this
  unfold sortPairsByX
  rw [hzip]
  exact List.Sorted.insertionSort_eq (hs.imp (fun hab => le_of_lt hab))

lemma interpSorted_clamp_low (p : ℚ × ℚ) (tl : List (ℚ × ℚ)) (v : ℚ)
    (h : v ≤ p.1) : interpSorted (p :: tl) v = p.2 := by
  simp [interpSorted, h]

lemma interpSorted_clamp_high (ps : List (ℚ × ℚ)) (hne : ps ≠ [])
    (hs : ps.Pairwise KnotLT) (v : ℚ) (h : (ps.getLast hne).1 ≤ v) :
    interpSorted ps v = (ps.getLast hne).2 := by
  match ps, hne with
  | p :: tl, _ =>
    by_cases hlow : v ≤ p.1
    · cases tl with
      | nil => simp [interpSorted, hlow, List.getLast]
      | cons q rest =>
        exfalso
        have hmem : (p :: q :: rest).getLast (List.cons_ne_nil _ _) ∈ q :: rest := by
          rw [List.getLast_cons (List.cons_ne_nil q rest)]
          exact List.getLast_mem _
        have := (List.pairwise_cons.mp hs).1 _ hmem
        exact absurd (le_trans h hlow) (not_le.mpr this)
    · simp [interpSorted, hlow, h]

lemma interpScan_at_knot (tl : List (ℚ × ℚ)) :
    ∀ (p : ℚ × ℚ), (p :: tl).Pairwise KnotGap →
      ∀ (j : ℕ) (hj : j < tl.length), interpScan p tl (tl[j].1) = tl[j].2 := by
  induction tl with
  | nil => intro p _ j hj; simp at hj
  | cons q rest ih =>
    intro p hp j hj
    obtain ⟨hpall, hp'⟩ := List.pairwise_cons.mp hp
    match j with
    | 0 =>
      have hgap : p.1 + epsDen ≤ q.1 := hpall q (List.mem_cons_self q rest)
      have hden : q.1 - p.1 ≠ 0 := by have := epsDen_pos; intro h; simp [KnotGap] at hgap; linarith
      have hmax : max epsDen (q.1 - p.1) = q.1 - p.1 := by
        apply max_eq_right; simp [KnotGap] at hgap; linarith
      simp only [List.getElem_cons_zero, interpScan, le_refl, if_true]
      rw [hmax, div_self hden]
      ring
    | jj + 1 =>
      have hjj : jj < rest.length := by simpa using hj
      have hmem : rest[jj] ∈ rest := List.getElem_mem _
      have hgap : q.1 + epsDen ≤ rest[jj].1 :=
        (List.pairwise_cons.mp hp').1 _ hmem
      have hcond : ¬ (rest[jj].1 ≤ q.1) := by
        have := epsDen_pos; push_neg; linarith
      simp only [List.getElem_cons_succ, interpScan, if_neg hcond]
      exact ih q hp' jj hjj

lemma interpSorted_at_knot (ps : List (ℚ × ℚ)) (hs : ps.Pairwise KnotGap)
    (i : ℕ) (hi : i < ps.length) : interpSorted ps (ps[i].1) = ps[i].2 := by
  have hlt : ps.Pairwise KnotLT := pairwise_lt_of_gap hs
  match ps, i with
  | p :: tl, 0 => simp [interpSorted]
  | p :: tl, i2 + 1 =>
    have hi2 : i2 < tl.length := by simpa using hi
    obtain ⟨hpall, hp2⟩ := List.pairwise_cons.mp hs
    have hgap : p.1 + epsDen ≤ tl[i2].1 := hpall _ (List.getElem_mem _)
    have hlow : ¬ (tl[i2].1 ≤ p.1) := by have := epsDen_pos; push_neg; linarith
    have htlne : tl ≠ [] := List.ne_nil_of_length_pos (by omega)
    rcases eq_or_lt_of_le (Nat.succ_le_of_lt hi2) with hlast | hmid
    · -- the knot is the last one: the high clamp fires
      have hlasteq : (p :: tl).getLast (List.cons_ne_nil p tl) = tl[i2] := by
        rw [List.getLast_cons htlne, List.getLast_eq_getElem]
        congr 1
        omega
      simp only [List.getElem_cons_succ, interpSorted, if_neg hlow, hlasteq, le_refl, if_true]
    · -- interior knot: the scan stops exactly there
      have hhigh : ¬ (((p :: tl).getLast (List.cons_ne_nil p tl)).1 ≤ tl[i2].1) := by
        have hlen1 : tl.length - 1 < tl.length := by omega
        have hlast : (p :: tl).getLast (List.cons_ne_nil p tl) =
            tl[tl.length - 1] := by
          rw [List.getLast_cons htlne, List.getLast_eq_getElem]
        have hstep : tl[i2].1 + epsDen ≤ tl[tl.length - 1].1 :=
          List.pairwise_iff_getElem.mp hp2 i2 (tl.length - 1) hi2 (by omega) (by omega)
        rw [hlast]
        have := epsDen_pos; push_neg; linarith
      simp only [List.getElem_cons_succ, interpSorted, if_neg hlow, if_neg hhigh]
      exact interpScan_at_knot tl p hs i2 hi2

lemma interpScan_between (tl : List (ℚ × ℚ)) :
    ∀ (p : ℚ × ℚ) (v : ℚ), (p :: tl).Pairwise KnotLT →
      ∀ (j : ℕ) (hj : j + 1 < (p :: tl).length),
        ((p :: tl)[j]).1 < v → v < ((p :: tl)[j + 1]).1 →
        interpScan p tl v =
          ((p :: tl)[j]).2 *
              (1 - (v - ((p :: tl)[j]).1) /
                max epsDen (((p :: tl)[j + 1]).1 - ((p :: tl)[j]).1)) +
            ((p :: tl)[j + 1]).2 *
              ((v - ((p :: tl)[j]).1) /
                max epsDen (((p :: tl)[j + 1]).1 - ((p :: tl)[j]).1)) := by
  induction tl with
  | nil => intro p v _ j hj _ _; simp at hj
  | cons q rest ih =>
    intro p v hp j hj hv1 hv2
    obtain ⟨hpall, hp2⟩ := List.pairwise_cons.mp hp
    match j with
    | 0 =>
      have hcond : v ≤ q.1 := le_of_lt (by simpa using hv2)
      simp only [List.getElem_cons_zero, List.getElem_cons_succ, interpScan, if_pos hcond]
    | jj + 1 =>
      have hjj : jj + 1 < (q :: rest).length := by simpa using hj
      have hq : q.1 < v := by
        have h1 : ((q :: rest)[jj]).1 < v := by
          have := hv1; simpa using this
        have hle : q.1 ≤ ((q :: rest)[jj]).1 :=
          fst_mono_of_pairwise_lt hp2 (by omega) (by omega) (Nat.zero_le _)
        linarith
      have hcond : ¬ (v ≤ q.1) := not_le.mpr hq
      simp only [List.getElem_cons_succ, interpScan, if_neg hcond]
      have := ih q v hp2 jj hjj (by simpa using hv1) (by simpa using hv2)
      simpa using this

lemma interpSorted_between (ps : List (ℚ × ℚ)) (hs : ps.Pairwise KnotLT) (v : ℚ)
    (j : ℕ) (hj : j + 1 < ps.length)
    (hv1 : (ps[j]).1 < v) (hv2 : v < (ps[j + 1]).1) :
    interpSorted ps v =
      (ps[j]).2 *
          (1 - (v - (ps[j]).1) /
            max epsDen ((ps[j + 1]).1 - (ps[j]).1)) +
        (ps[j + 1]).2 *
          ((v - (ps[j]).1) /
            max epsDen ((ps[j + 1]).1 - (ps[j]).1)) := by
  match ps with
  | p :: tl =>
    have hlow : ¬ (v ≤ p.1) := by
      have hle : p.1 ≤ ((p :: tl)[j]).1 :=
        fst_mono_of_pairwise_lt hs (by omega) (by omega) (Nat.zero_le _)
      push_neg; linarith
    have htlne : tl ≠ [] := by
      cases tl
      · simp at hj
      · simp
    have hlen1 : (p :: tl).length - 1 < (p :: tl).length := by simp
    have hhigh : ¬ (((p :: tl).getLast (List.cons_ne_nil p tl)).1 ≤ v) := by
      have hlast : (p :: tl).getLast (List.cons_ne_nil p tl) =
          (p :: tl)[(p :: tl).length - 1] := List.getLast_eq_getElem _ _
      have hle : ((p :: tl)[j + 1]).1 ≤ ((p :: tl)[(p :: tl).length - 1]).1 :=
        fst_mono_of_pairwise_lt hs hj (by simp) (by omega)
      rw [hlast]; push_neg; linarith
    simp only [interpSorted, if_neg hlow, if_neg hhigh]
    exact interpScan_between tl p v hs j hj hv1 hv2

lemma interpolate_numeric_singleton (xs ys : List ℚ) (v : ℚ) (hne : xs ≠ [])
    (hlen : xs.length = ys.length) :
    interpolate_numeric [v] xs ys = [interpSorted (sortPairsByX xs ys) v] := by
  have h1 : xs.length ≠ 0 := by
    have := List.length_pos.mpr hne
    omega
  have h2 : ys.length ≠ 0 := hlen ▸ h1
  simp [interpolate_numeric, h1, h2, hlen]

/-- C3 (counterexample). Evaluating `interpolate_numeric` exactly at the x
position of the middle knot `(1e-10, 5)` of the curve
`x = [0, 1e-10, 1], y = [0, 5, 1]` does NOT return that knot y value `5`:
because the two left knots are closer than the `1e-9` denominator floor, the
interpolation weight becomes `t = 1e-10 / 1e-9 = 1/10` and the result is
`0 * (9/10) + 5 * (1/10) = 1/2`.  This refutes the final clause of the claim
(evaluating exactly at a knot x returns that knot y). -/
theorem C3_counterexample :
    interpolate_numeric [1/10000000000] [0, 1/10000000000, 1] [0, 5, 1] = [1/2] ∧
    ¬ (interpolate_numeric [1/10000000000] [0, 1/10000000000, 1] [0, 5, 1] = [5]) := by
  have h : interpolate_numeric [1/10000000000] [0, 1/10000000000, 1] [0, 5, 1] = [1/2] := by
    norm_num [interpolate_numeric, sortPairsByX, List.insertionSort, List.orderedInsert,
      interpSorted, interpScan, epsDen]
  refine ⟨h, ?_⟩
  rw [h]
  intro hcontra
  have : (1 : ℚ)/2 = 5 := by injection hcontra
  norm_num at this

/-- C3 (amended). For a numeric shape function with at least one knot,
equal-length x and y lists and strictly increasing sorted knot positions
(the data-model invariant), evaluation clamps to the first y at or below the
smallest knot, clamps to the last y at or above the largest knot, and
linearly interpolates with `t = (v - x_lo) / max(1e-9, x_hi - x_lo)` strictly
between adjacent knots; evaluating exactly at a knot x position returns that
knot y provided adjacent knots are at least `1e-9` apart (amendment: without
that gap the denominator floor shifts the weight, see the counterexample). -/
theorem C3_interpolation_clamp_lerp_knot (xs ys : List ℚ) (v : ℚ)
    (hne : xs ≠ []) (hlen : xs.length = ys.length)
    (hsorted : (xs.zip ys).Pairwise KnotLT) :
    (v ≤ ((xs.zip ys).headD (0, 0)).1 →
        interpolate_numeric [v] xs ys = [((xs.zip ys).headD (0, 0)).2]) ∧
    (((xs.zip ys).getLastD (0, 0)).1 ≤ v →
        interpolate_numeric [v] xs ys = [((xs.zip ys).getLastD (0, 0)).2]) ∧
    (∀ (j : ℕ) (hj : j + 1 < (xs.zip ys).length),
        ((xs.zip ys)[j]).1 < v → v < ((xs.zip ys)[j + 1]).1 →
        interpolate_numeric [v] xs ys =
          [((xs.zip ys)[j]).2 *
              (1 - (v - ((xs.zip ys)[j]).1) /
                max epsDen (((xs.zip ys)[j + 1]).1 - ((xs.zip ys)[j]).1)) +
            ((xs.zip ys)[j + 1]).2 *
              ((v - ((xs.zip ys)[j]).1) /
                max epsDen (((xs.zip ys)[j + 1]).1 - ((xs.zip ys)[j]).1))]) ∧
    ((xs.zip ys).Pairwise KnotGap →
        ∀ (i : ℕ) (hi : i < (xs.zip ys).length),
          interpolate_numeric [((xs.zip ys)[i]).1] xs ys = [((xs.zip ys)[i]).2]) := by
  have hzne : xs.zip ys ≠ [] := by
    have h1 : 0 < xs.length := List.length_pos.mpr hne
    apply List.ne_nil_of_length_pos
    rw [List.length_zip, ← hlen]
    simpa using h1
  have hsort_eq : sortPairsByX xs ys = xs.zip ys :=
    sortPairsByX_eq_self (hsorted.imp (fun hab => le_of_lt hab))
  have hsing : ∀ w : ℚ,
      interpolate_numeric [w] xs ys = [interpSorted (xs.zip ys) w] := by
    intro w
    rw [interpolate_numeric_singleton xs ys w hne hlen, hsort_eq]
  obtain ⟨p, tl, hps⟩ := List.exists_cons_of_ne_nil hzne
  refine ⟨?_, ?_, ?_, ?_⟩
  · intro hv
    rw [hsing v]
    rw [hps] at hv ⊢
    simp only [List.headD_cons] at hv ⊢
    rw [interpSorted_clamp_low p tl v hv]
  · intro hv
    have hlastD : (xs.zip ys).getLastD (0, 0) = (xs.zip ys).getLast hzne := by
      rw [List.getLastD_eq_getLast?, List.getLast?_eq_getLast _ hzne]
      rfl
    rw [hlastD] at hv
    rw [hsing v, hlastD]
    rw [interpSorted_clamp_high (xs.zip ys) hzne hsorted v hv]
  · intro j hj hv1 hv2
    rw [hsing v]
    rw [interpSorted_between (xs.zip ys) hsorted v j hj hv1 hv2]
  · intro hgap i hi
    rw [hsing]
    rw [interpSorted_at_knot (xs.zip ys) hgap i hi]

/-- C3 (witness). Concrete instance of the amended interpolation theorem on
the curve `x = [0, 1, 2], y = [10, 20, 30]`: clamping below, clamping above,
midpoint interpolation and exact knot evaluation. -/
theorem C3_witness :
    interpolate_numeric [-(1 : ℚ)] [0, 1, 2] [10, 20, 30] = [10] ∧
    interpolate_numeric [(5 : ℚ)] [0, 1, 2] [10, 20, 30] = [30] ∧
    interpolate_numeric [(1 : ℚ)/2] [0, 1, 2] [10, 20, 30] = [15] ∧
    interpolate_numeric [(1 : ℚ)] [0, 1, 2] [10, 20, 30] = [20] := by
  have hsorted : (([0, 1, 2] : List ℚ).zip [10, 20, 30]).Pairwise KnotLT := by
    simp only [List.zip_cons_cons, List.zip_nil_right]
    norm_num [List.pairwise_cons, KnotLT]
  have hgap : (([0, 1, 2] : List ℚ).zip [10, 20, 30]).Pairwise KnotGap := by
    simp only [List.zip_cons_cons, List.zip_nil_right]
    norm_num [List.pairwise_cons, KnotGap, epsDen]
  refine ⟨?_, ?_, ?_, ?_⟩
  · have h := (C3_interpolation_clamp_lerp_knot [0, 1, 2] [10, 20, 30] (-1)
      (by simp) (by simp) hsorted).1
    simp only [List.zip_cons_cons, List.zip_nil_right, List.headD_cons] at h
    simpa using h (by norm_num)
  · have h := (C3_interpolation_clamp_lerp_knot [0, 1, 2] [10, 20, 30] 5
      (by simp) (by simp) hsorted).2.1
    simp only [List.zip_cons_cons, List.zip_nil_right] at h
    norm_num at h
    exact h
  · have h := (C3_interpolation_clamp_lerp_knot [0, 1, 2] [10, 20, 30] (1/2)
      (by simp) (by simp) hsorted).2.2.1 0
      (by simp only [List.zip_cons_cons, List.zip_nil_right]; norm_num)
    simp only [List.zip_cons_cons, List.zip_nil_right] at h
    have h15 := h (by norm_num) (by norm_num)
    rw [h15]
    norm_num [epsDen]
  · have h := (C3_interpolation_clamp_lerp_knot [0, 1, 2] [10, 20, 30] 0
      (by simp) (by simp) hsorted).2.2.2 hgap 1
      (by simp only [List.zip_cons_cons, List.zip_nil_right]; norm_num)
    simp only [List.zip_cons_cons, List.zip_nil_right] at h
    simpa using h

lemma sortPairsByX_length (xs ys : List ℚ) :
    (sortPairsByX xs ys).length = min xs.length ys.length := by
  simp [sortPairsByX, List.length_insertionSort, List.length_zip]

lemma sortPairsByX_sorted (xs ys : List ℚ) :
    (sortPairsByX xs ys).Pairwise (fun a b : ℚ × ℚ => a.1 ≤ b.1) := by
  haveI : IsTotal (ℚ × ℚ) (fun a b : ℚ × ℚ => a.1 ≤ b.1) := ⟨fun a b => le_total a.1 b.1⟩
  haveI : IsTrans (ℚ × ℚ) (fun a b : ℚ × ℚ => a.1 ≤ b.1) :=
    ⟨fun _ _ _ hab hbc => le_trans hab hbc⟩
  exact List.sorted_insertionSort _ _

lemma sortPairsByX_map_eq {ps : List (ℚ × ℚ)}
    (hs : ps.Pairwise (fun a b : ℚ × ℚ => a.1 ≤ b.1)) :
    sortPairsByX (ps.map Prod.fst) (ps.map Prod.snd) = ps := by
  have hzip : (ps.map Prod.fst).zip (ps.map Prod.snd) = ps := by
    have := List.zip_unzip ps
    rwa [List.unzip_eq_map] at this
  unfold sortPairsByX
  rw [hzip]
  exact List.Sorted.insertionSort_eq hs

lemma getLastD_of_ne_nil {α : Type} {l : List α} (hne : l ≠ []) (d : α) :
    l.getLastD d = l.getLast hne := by
  rw [List.getLastD_eq_getLast?, List.getLast?_eq_getLast _ hne]
  rfl

lemma headD_of_ne_nil {α : Type} {l : List α} (hne : l ≠ []) (d : α) :
    l.headD d = l.head hne := by
  rw [List.headD_eq_head?, List.head?_eq_head hne]
  rfl

lemma headD_map_fst (l : List (ℚ × ℚ)) :
    (l.map Prod.fst).headD 0 = (l.headD (0, 0)).1 := by
  cases l <;> simp

lemma headD_map_snd (l : List (ℚ × ℚ)) :
    (l.map Prod.snd).headD 0 = (l.headD (0, 0)).2 := by
  cases l <;> simp

lemma getLastD_map_fst (l : List (ℚ × ℚ)) :
    (l.map Prod.fst).getLastD 0 = (l.getLastD (0, 0)).1 := by
  match l with
  | [] => simp
  | a :: t =>
    have h1 : (a :: t).map Prod.fst ≠ [] := by simp
    rw [getLastD_of_ne_nil h1, getLastD_of_ne_nil (List.cons_ne_nil a t),
      List.getLast_eq_getElem, List.getLast_eq_getElem, List.getElem_map]
    simp

lemma fst_mono_of_sorted {ps : List (ℚ × ℚ)}
    (hs : ps.Pairwise (fun a b : ℚ × ℚ => a.1 ≤ b.1))
    {i j : ℕ} (hi : i < ps.length) (hj : j < ps.length) (hij : i ≤ j) :
    (ps[i]).1 ≤ (ps[j]).1 := by
  rcases lt_or_eq_of_le hij with h | h
  · exact List.pairwise_iff_getElem.mp hs i j hi hj h
  · subst h; rfl

lemma sorted_headD_le {ps : List (ℚ × ℚ)}
    (hs : ps.Pairwise (fun a b : ℚ × ℚ => a.1 ≤ b.1)) {p : ℚ × ℚ} (hp : p ∈ ps) :
    (ps.headD (0, 0)).1 ≤ p.1 := by
  match ps with
  | [] => simp at hp
  | a :: t =>
    rcases List.mem_cons.mp hp with h | h
    · subst h; simp
    · simp only [List.headD_cons]
      exact (List.pairwise_cons.mp hs).1 p h

lemma sorted_le_getLastD {ps : List (ℚ × ℚ)}
    (hs : ps.Pairwise (fun a b : ℚ × ℚ => a.1 ≤ b.1)) {p : ℚ × ℚ} (hp : p ∈ ps) :
    p.1 ≤ (ps.getLastD (0, 0)).1 := by
  have hne : ps ≠ [] := List.ne_nil_of_mem hp
  obtain ⟨i, hi, hpi⟩ := List.getElem_of_mem hp
  rw [getLastD_of_ne_nil hne, List.getLast_eq_getElem]
  rw [← hpi]
  exact fst_mono_of_sorted hs hi (by omega) (by omega)

lemma linspace_length (a b : ℚ) (n : ℕ) : (linspace a b n).length = n := by
  rw [linspace, List.length_map, List.length_range]

lemma linspace_getD (a b : ℚ) (n i : ℕ) (hi : i < n) :
    (linspace a b n).getD i 0 = a + (i : ℚ) * ((b - a) / ((n : ℚ) - 1)) := by
  rw [linspace, List.getD_eq_getElem _ _
    (by rw [List.length_map, List.length_range]; exact hi), List.getElem_map,
    List.getElem_range]

lemma interpolate_numeric_of_ok (values xs ys : List ℚ) (h1 : xs.length ≠ 0)
    (hlen : xs.length = ys.length) :
    interpolate_numeric values xs ys = values.map (interpSorted (sortPairsByX xs ys)) := by
  have h2 : ys.length ≠ 0 := hlen ▸ h1
  simp [interpolate_numeric, h1, h2, hlen]

lemma resample_numeric_unfold (xs ys : List ℚ) (N : ℕ) :
    resample_numeric xs ys N =
      ((if N ≤ 1 then [((sortPairsByX xs ys).headD (0, 0)).1]
        else linspace ((sortPairsByX xs ys).headD (0, 0)).1
          ((sortPairsByX xs ys).getLastD (0, 0)).1 N),
       interpolate_numeric
         (if N ≤ 1 then [((sortPairsByX xs ys).headD (0, 0)).1]
          else linspace ((sortPairsByX xs ys).headD (0, 0)).1
            ((sortPairsByX xs ys).getLastD (0, 0)).1 N)
         ((sortPairsByX xs ys).map Prod.fst) ((sortPairsByX xs ys).map Prod.snd)) := by
  simp only [resample_numeric, headD_map_fst, getLastD_map_fst]

lemma interpolate_via_sorted (xs ys : List ℚ) (hne : sortPairsByX xs ys ≠ [])
    (w : List ℚ) :
    interpolate_numeric w ((sortPairsByX xs ys).map Prod.fst)
        ((sortPairsByX xs ys).map Prod.snd) =
      w.map (interpSorted (sortPairsByX xs ys)) := by
  have hlen : ((sortPairsByX xs ys).map Prod.fst).length ≠ 0 := by
    rw [List.length_map]
    have := List.length_pos.mpr hne
    omega
  rw [interpolate_numeric_of_ok _ _ _ hlen (by simp),
    sortPairsByX_map_eq (sortPairsByX_sorted xs ys)]

/-- C4. For a numeric shape function with at least one (x, y) pair, resampling
to `N ≥ 2` points produces exactly `N` knots on an evenly spaced grid
`min + i * ((max - min) / (N - 1))` that starts at the smallest and ends at the
largest x of the sorted input pairs (which bound all knots), with y values
given by the piecewise-linear interpolant of the sorted input curve; for
`N ≤ 1` it produces the single knot at the minimum. -/
theorem C4_resample_contract (xs ys : List ℚ) (N : ℕ) (hxs : xs ≠ []) (hys : ys ≠ []) :
    (2 ≤ N →
      (resample_numeric xs ys N).1.length = N ∧
      (resample_numeric xs ys N).2.length = N ∧
      (∀ i : ℕ, i < N →
        (resample_numeric xs ys N).1.getD i 0 =
          ((sortPairsByX xs ys).headD (0, 0)).1 +
            (i : ℚ) * ((((sortPairsByX xs ys).getLastD (0, 0)).1 -
              ((sortPairsByX xs ys).headD (0, 0)).1) / ((N : ℚ) - 1))) ∧
      (resample_numeric xs ys N).1.getD 0 0 = ((sortPairsByX xs ys).headD (0, 0)).1 ∧
      (resample_numeric xs ys N).1.getD (N - 1) 0 =
        ((sortPairsByX xs ys).getLastD (0, 0)).1 ∧
      (∀ p ∈ sortPairsByX xs ys,
        ((sortPairsByX xs ys).headD (0, 0)).1 ≤ p.1 ∧
          p.1 ≤ ((sortPairsByX xs ys).getLastD (0, 0)).1) ∧
      (∀ i : ℕ, i < N →
        (resample_numeric xs ys N).2.getD i 0 =
          interpSorted (sortPairsByX xs ys) ((resample_numeric xs ys N).1.getD i 0))) ∧
    (N ≤ 1 →
      resample_numeric xs ys N =
        ([((sortPairsByX xs ys).headD (0, 0)).1],
          [((sortPairsByX xs ys).headD (0, 0)).2])) := by
  have hpsne : sortPairsByX xs ys ≠ [] := by
    apply List.ne_nil_of_length_pos
    rw [sortPairsByX_length]
    have h1 := List.length_pos.mpr hxs
    have h2 := List.length_pos.mpr hys
    omega
  have hsorted := sortPairsByX_sorted xs ys
  have hinterp := interpolate_via_sorted xs ys hpsne
  constructor
  · intro hN
    have hN1 : ¬ (N ≤ 1) := by omega
    have hfst : (resample_numeric xs ys N).1 =
        linspace ((sortPairsByX xs ys).headD (0, 0)).1
          ((sortPairsByX xs ys).getLastD (0, 0)).1 N := by
      rw [resample_numeric_unfold]
      simp [hN1]
    have hsnd : (resample_numeric xs ys N).2 =
        (resample_numeric xs ys N).1.map (interpSorted (sortPairsByX xs ys)) := by
      conv_lhs => rw [resample_numeric_unfold]
      rw [hfst]
      simp only [hN1, if_false]
      exact hinterp _
    have hNQ : ((N : ℚ) - 1) ≠ 0 := by
      have : (2 : ℚ) ≤ (N : ℚ) := by exact_mod_cast hN
      linarith
    refine ⟨?_, ?_, ?_, ?_, ?_, ?_, ?_⟩
    · rw [hfst, linspace_length]
    · rw [hsnd, List.length_map, hfst, linspace_length]
    · intro i hi
      rw [hfst, linspace_getD _ _ _ _ hi]
    · rw [hfst, linspace_getD _ _ _ _ (by omega)]
      norm_num
    · rw [hfst, linspace_getD _ _ _ _ (by omega)]
      have hcast : ((N - 1 : ℕ) : ℚ) = (N : ℚ) - 1 := by
        have : 1 ≤ N := by omega
        push_cast [this]
        ring
      rw [hcast]
      field_simp
    · intro p hp
      exact ⟨sorted_headD_le hsorted hp, sorted_le_getLastD hsorted hp⟩
    · intro i hi
      have hilen : i < (resample_numeric xs ys N).1.length := by
        rw [hfst, linspace_length]; exact hi
      rw [hsnd, List.getD_eq_getElem _ _ (by simpa using hilen), List.getElem_map,
        List.getD_eq_getElem _ _ hilen]
  · intro hN
    rw [resample_numeric_unfold]
    simp only [hN, if_true, if_pos hN]
    rw [hinterp]
    obtain ⟨p, tl, hps⟩ := List.exists_cons_of_ne_nil hpsne
    rw [hps]
    simp only [List.map_cons, List.map_nil, List.headD_cons]
    rw [interpSorted_clamp_low p tl p.1 (le_refl p.1)]

/-- C4 (witness). Resampling the two-knot curve given unsorted as
`x = [1, 0], y = [5, 7]` to 3 points yields the evenly spaced grid
`[0, 1/2, 1]` with interpolated values `[7, 6, 5]`; resampling to 0 points
yields the single knot at the minimum, `([0], [7])`. -/
theorem C4_witness :
    (resample_numeric [1, 0] [5, 7] 3).1.length = 3 ∧
    (resample_numeric [1, 0] [5, 7] 3).1.getD 1 0 = 1/2 ∧
    (resample_numeric [1, 0] [5, 7] 3).2.getD 1 0 = 6 ∧
    resample_numeric [1, 0] [5, 7] 0 = ([0], [7]) := by
  have hsort : sortPairsByX [1, 0] [5, 7] = [(0, 7), (1, 5)] := by
    norm_num [sortPairsByX, List.insertionSort, List.orderedInsert]
  have h3 := (C4_resample_contract [1, 0] [5, 7] 3 (by simp) (by simp)).1 (by norm_num)
  have h0 := (C4_resample_contract [1, 0] [5, 7] 0 (by simp) (by simp)).2 (by norm_num)
  refine ⟨h3.1, ?_, ?_, ?_⟩
  · have := h3.2.2.1 1 (by norm_num)
    rw [hsort] at this
    norm_num at this
    exact this
  · have hy := h3.2.2.2.2.2.2 1 (by norm_num)
    have hx := h3.2.2.1 1 (by norm_num)
    rw [hsort] at hy hx
    rw [hx] at hy
    rw [hy]
    norm_num [interpSorted, interpScan, epsDen]
  · rw [hsort] at h0
    norm_num at h0
    exact h0

/-- C7 (counterexample). Resampling the 3-knot curve
`x = [0, 1, 10], y = [0, 1, 0]` to its own point count 3 does NOT reproduce
it: the evenly spaced target grid is `[0, 5, 10]`, which differs from the
original knot positions, and the resampled y values are `[0, 5/9, 0]`;
evaluating the resampled curve at the original knot `x = 1` gives `1/9`
while the original curve gives `1` there. -/
theorem C7_counterexample :
    resample_numeric [0, 1, 10] [0, 1, 0] 3 = ([0, 5, 10], [0, 5/9, 0]) ∧
    ¬ (resample_numeric [0, 1, 10] [0, 1, 0] 3 = ([0, 1, 10], [0, 1, 0])) ∧
    interpolate_numeric [1] [0, 5, 10] [0, 5/9, 0] = [1/9] ∧
    interpolate_numeric [1] [0, 1, 10] [0, 1, 0] = [1] := by
  have h : resample_numeric [0, 1, 10] [0, 1, 0] 3 = ([0, 5, 10], [0, 5/9, 0]) := by
    norm_num [resample_numeric, interpolate_numeric, sortPairsByX, List.insertionSort,
      List.orderedInsert, interpSorted, interpScan, epsDen, linspace, List.range_succ]
  refine ⟨h, ?_, ?_, ?_⟩
  · rw [h]
    intro hcontra
    have h1 : ([0, 5, 10] : List ℚ) = [0, 1, 10] := congrArg Prod.fst hcontra
    have h2 : (5 : ℚ) = 1 := by
      have := congrArg (fun l : List ℚ => l.getD 1 0) h1
      simp at this
    norm_num at h2
  · norm_num [interpolate_numeric, sortPairsByX, List.insertionSort,
      List.orderedInsert, interpSorted, interpScan, epsDen]
  · norm_num [interpolate_numeric, sortPairsByX, List.insertionSort,
      List.orderedInsert, interpSorted, interpScan, epsDen]

/-- C7 (amended). Resampling an already-`N`-point numeric curve to `N` points
reproduces exactly the same x positions and y values provided the curve
already sits on an evenly spaced grid with spacing at least `1e-9` (the
amendment: for non-uniform knot spacing the evenly spaced target grid differs
from the original one, see the counterexample; in exact arithmetic the
reproduction is exact, subsuming the floating-point tolerance). -/
theorem C7_resample_idempotent_uniform (x0 d : ℚ) (N : ℕ) (ys : List ℚ)
    (hN : 2 ≤ N) (hlen : ys.length = N) (hd : epsDen ≤ d) :
    resample_numeric ((List.range N).map (fun i : ℕ => x0 + (i : ℚ) * d)) ys N =
      ((List.range N).map (fun i : ℕ => x0 + (i : ℚ) * d), ys) := by
  set xs := (List.range N).map (fun i : ℕ => x0 + (i : ℚ) * d) with hxs
  have hd0 : 0 < d := lt_of_lt_of_le epsDen_pos hd
  have hxslen : xs.length = N := by rw [hxs, List.length_map, List.length_range]
  have hzlen : (xs.zip ys).length = N := by
    rw [List.length_zip, hxslen, hlen, min_self]
  have hzne : xs.zip ys ≠ [] := by
    apply List.ne_nil_of_length_pos
    omega
  have hxsget : ∀ (i : ℕ) (hi : i < N), xs[i] = x0 + (i : ℚ) * d := by
    intro i hi
    simp only [hxs, List.getElem_map, List.getElem_range]
  have hzget : ∀ (i : ℕ) (hi : i < N),
      (xs.zip ys)[i] = (x0 + (i : ℚ) * d, ys[i]) := by
    intro i hi
    rw [List.getElem_zip, hxsget i hi]
  have hgap : (xs.zip ys).Pairwise KnotGap := by
    rw [List.pairwise_iff_getElem]
    intro i j hi hj hij
    have hiN : i < N := by omega
    have hjN : j < N := by omega
    rw [hzget i hiN, hzget j hjN]
    unfold KnotGap
    simp only
    have hij1 : (i : ℚ) + 1 ≤ (j : ℚ) := by exact_mod_cast hij
    have hmul : ((i : ℚ) + 1) * d ≤ (j : ℚ) * d :=
      mul_le_mul_of_nonneg_right hij1 (le_of_lt hd0)
    have : (i : ℚ) * d + d ≤ (j : ℚ) * d := by linarith [hmul]
    linarith
  have hsorteq : sortPairsByX xs ys = xs.zip ys :=
    sortPairsByX_eq_self ((pairwise_lt_of_gap hgap).imp (fun hab => le_of_lt hab))
  have hmapfst : (xs.zip ys).map Prod.fst = xs :=
    List.map_fst_zip xs ys (by omega)
  have hmapsnd : (xs.zip ys).map Prod.snd = ys :=
    List.map_snd_zip xs ys (by omega)
  have hhead : ((xs.zip ys).headD (0, 0)).1 = x0 := by
    rw [headD_of_ne_nil hzne, List.head_eq_getElem, hzget 0 (by omega)]
    norm_num
  have hlast : ((xs.zip ys).getLastD (0, 0)).1 = x0 + ((N - 1 : ℕ) : ℚ) * d := by
    rw [getLastD_of_ne_nil hzne, List.getLast_eq_getElem]
    simp only [hzlen]
    rw [hzget (N - 1) (by omega)]
  have hcast : ((N - 1 : ℕ) : ℚ) = (N : ℚ) - 1 := by
    have h1 : 1 ≤ N := by omega
    push_cast [h1]
    ring
  have hNQ : ((N : ℚ) - 1) ≠ 0 := by
    have : (2 : ℚ) ≤ (N : ℚ) := by exact_mod_cast hN
    linarith
  have htx : linspace x0 (x0 + ((N - 1 : ℕ) : ℚ) * d) N = xs := by
    apply List.ext_getElem
    · rw [linspace_length, hxslen]
    · intro i h1 h2
      have hiN : i < N := by rwa [linspace_length] at h1
      rw [hxsget i hiN]
      simp only [linspace, List.getElem_map, List.getElem_range]
      rw [hcast]
      field_simp
  have hsnd : xs.map (interpSorted (xs.zip ys)) = ys := by
    apply List.ext_getElem
    · rw [List.length_map, hxslen, hlen]
    · intro i h1 h2
      have hiN : i < N := by rwa [List.length_map, hxslen] at h1
      rw [List.getElem_map]
      have hv : xs[i] = ((xs.zip ys)[i]).1 := by
        rw [hzget i hiN, hxsget i hiN]
      rw [hv, interpSorted_at_knot (xs.zip ys) hgap i (by omega), hzget i hiN]
  rw [resample_numeric_unfold]
  rw [hsorteq, hmapfst, hmapsnd, hhead, hlast]
  have hN1 : ¬ (N ≤ 1) := by omega
  simp only [hN1, if_false]
  rw [htx]
  rw [interpolate_numeric_of_ok xs xs ys (by omega) (by omega), hsorteq, hsnd]

/-- C7 (witness). Resampling the already evenly spaced two-point curve
`x = [0, 1], y = [7, 9]` to 2 points reproduces it exactly. -/
theorem C7_witness :
    resample_numeric ((List.range 2).map (fun i : ℕ => (0 : ℚ) + (i : ℚ) * 1)) [7, 9] 2 =
      ((List.range 2).map (fun i : ℕ => (0 : ℚ) + (i : ℚ) * 1), [7, 9]) :=
  C7_resample_idempotent_uniform 0 1 2 [7, 9] (by norm_num) (by norm_num)
    (by norm_num [epsDen])

lemma lookupCat_eq_none {α : Type} [DecidableEq α] (cats : List α) (ys : List ℚ)
    (c : α) (hc : c ∉ cats) : lookupCat cats ys c = none := by
  induction cats generalizing ys with
  | nil => cases ys <;> rfl
  | cons a t ih =>
    have hcn : c ≠ a := fun h => hc (h ▸ List.mem_cons_self a t)
    have hct : c ∉ t := fun h => hc (List.mem_cons_of_mem a h)
    cases ys with
    | nil => simp [lookupCat, ih [] hct, hcn]
    | cons v vs => simp [lookupCat, ih vs hct, hcn]

/-- C8. Contribution evaluation returns exactly one zero per input value and
no error for: an empty or missing shape function; a numeric shape function
whose x list is empty or whose x and y lists have different lengths (the
length guard fires before any value is inspected); and, per value, a
categorical input that resolves to no known category label, whether it is an
unknown string label, a numeric value with no supplied category list, or a
numeric value whose rounded index is at or above the category-list length. -/
theorem C8_degenerate_zero_contributions (α : Type) [DecidableEq α] [Inhabited α]
    (vals : List (PyVal α)) (categories : Option (List α))
    (xs ys : List ℚ) (hdeg : xs.length = 0 ∨ ys.length = 0 ∨ xs.length ≠ ys.length)
    (catXs : List α) (catYs : List ℚ) (c : α) (hc : c ∉ catXs)
    (cl : List α) (q : ℚ) (hq : (cl.length : ℤ) ≤ roundHalfEven q) :
    evaluate_contribs ShapeFn.empty vals categories =
      Except.ok (vals.map (fun _ => 0)) ∧
    evaluate_contribs (ShapeFn.numerical xs ys) vals categories =
      Except.ok (vals.map (fun _ => 0)) ∧
    evaluate_contribs (ShapeFn.categorical catXs catYs) [PyVal.cat c] categories =
      Except.ok [0] ∧
    evaluate_contribs (ShapeFn.categorical catXs catYs) [PyVal.num q] none =
      Except.ok [0] ∧
    evaluate_contribs (ShapeFn.categorical catXs catYs) [PyVal.num q] (some cl) =
      Except.ok [0] := by
  refine ⟨rfl, ?_, ?_, ?_, ?_⟩
  · simp only [evaluate_contribs, if_pos hdeg]
  · simp [evaluate_contribs, mapExcept, catContrib, Except.map,
      lookupCat_eq_none catXs catYs c hc]
  · simp [evaluate_contribs, mapExcept, catContrib, Except.map]
  · have hguard : ¬ (cl ≠ [] ∧ roundHalfEven q < (cl.length : ℤ)) := by
      rintro ⟨-, hlt⟩
      omega
    simp [evaluate_contribs, mapExcept, catContrib, Except.map, hguard]

/-- C8 (witness). Concrete zero-contribution cases over natural-number
labels: empty shape function, empty numeric x list, unknown string label,
numeric value without a category list, and numeric value rounding to an
index at or above the category-list length. -/
theorem C8_witness :
    evaluate_contribs ShapeFn.empty [PyVal.num 3, PyVal.cat 0] (some [5]) =
      Except.ok [0, 0] ∧
    evaluate_contribs (ShapeFn.numerical [] [1]) [PyVal.num 3, PyVal.cat 0] (some [5]) =
      Except.ok [0, 0] ∧
    evaluate_contribs (ShapeFn.categorical [1, 2] [4, 5]) [PyVal.cat 9] (some [5]) =
      Except.ok [0] ∧
    evaluate_contribs (ShapeFn.categorical [1, 2] [4, 5]) [PyVal.num 7] none =
      Except.ok [0] ∧
    evaluate_contribs (ShapeFn.categorical [1, 2] [4, 5]) [PyVal.num 7] (some [8]) =
      Except.ok [0] := by
  have h := C8_degenerate_zero_contributions ℕ [PyVal.num 3, PyVal.cat 0] (some [5])
    [] [1] (by norm_num) [1, 2] [4, 5] 9 (by decide) [8] 7
    (by norm_num [roundHalfEven])
  obtain ⟨h1, h2, h3, h4, h5⟩ := h
  exact ⟨by simpa using h1, by simpa using h2, h3, h4, h5⟩

/-- C10. A numeric categorical input value whose rounded index `idx` lies in
`[-len(categories), -1]` is not rejected: the guard only tests
`idx < len(categories)`, so Python list indexing wraps around and the
contribution of the category at position `len(categories) + idx` (counted
from the end) is returned. -/
theorem C10_negative_index_wraparound (α : Type) [DecidableEq α] [Inhabited α]
    (catXs : List α) (catYs : List ℚ) (cl : List α) (q : ℚ)
    (h1 : -(cl.length : ℤ) ≤ roundHalfEven q) (h2 : roundHalfEven q ≤ -1) :
    evaluate_contribs (ShapeFn.categorical catXs catYs) [PyVal.num q] (some cl) =
      Except.ok [(lookupCat catXs catYs
        (cl.getD ((cl.length : ℤ) + roundHalfEven q).toNat default)).getD 0] := by
  have hne : cl ≠ [] := by
    intro h
    rw [h] at h1
    simp at h1
    omega
  have hguard : cl ≠ [] ∧ roundHalfEven q < (cl.length : ℤ) := by
    refine ⟨hne, ?_⟩
    have : (0 : ℤ) ≤ (cl.length : ℤ) := by positivity
    omega
  have hneg : ¬ (0 ≤ roundHalfEven q) := by omega
  have hsecond : -(cl.length : ℤ) ≤ roundHalfEven q ∧ roundHalfEven q < 0 :=
    ⟨h1, by omega⟩
  simp [evaluate_contribs, mapExcept, catContrib, pyIndex, Except.map, hguard, hneg,
    hsecond]

/-- C10 (witness). With category list `[10, 20, 30]` and input value `-2`
(rounding to index `-2`), the wrap-around resolves to the category `20` at
position `3 + (-2) = 1`, whose shape-function contribution `7` is returned. -/
theorem C10_witness :
    evaluate_contribs (ShapeFn.categorical [20] [7]) [PyVal.num (-2)] (some [10, 20, 30]) =
      Except.ok [7] := by
  have h := C10_negative_index_wraparound ℕ [20] [7] [10, 20, 30] (-2)
    (by norm_num [roundHalfEven]) (by norm_num [roundHalfEven])
  have hround : roundHalfEven (-2) = -2 := by norm_num [roundHalfEven]
  rw [hround] at h
  norm_num [lookupCat] at h
  exact h

/-- C5 (counterexample). For a numeric feature with observed split values
`[0, 2]` and a missing (empty) shape function, the built Partial has EMPTY
editable axes: there is no fallback to a uniform grid spanning the observed
minimum 0 and maximum 2 (such a grid would have to be non-empty). -/
theorem C5_counterexample :
    (build_numeric_partial_record (ShapeFn.empty (α := ℕ)) [0, 2]).editableX = ([] : List ℚ) ∧
    (build_numeric_partial_record (ShapeFn.empty (α := ℕ)) [0, 2]).editableY = ([] : List ℚ) ∧
    ¬ isUniformGridSpanning
      (build_numeric_partial_record (ShapeFn.empty (α := ℕ)) [0, 2]).editableX 0 2 := by
  refine ⟨rfl, rfl, ?_⟩
  rintro ⟨hne, -, -, -⟩
  exact hne rfl

/-- C5 (amended). The numeric-feature Partial always carries exactly the
shape-function x and y lists as its editable axes; in particular a missing
shape function, or one with empty x and y lists, yields empty editable axes
(no uniform-grid fallback over the observed feature range is applied), while
the observed values are passed through as scatter data. -/
theorem C5_numeric_partial_no_grid_fallback (α : Type) (sf : ShapeFn α)
    (scatter : List ℚ)
    (hdeg : sf = ShapeFn.empty ∨ sf = ShapeFn.numerical [] []) :
    (build_numeric_partial_record sf scatter).editableX = [] ∧
    (build_numeric_partial_record sf scatter).editableY = [] ∧
    (build_numeric_partial_record sf scatter).gridX = [] ∧
    (build_numeric_partial_record sf scatter).curve = [] ∧
    (build_numeric_partial_record sf scatter).scatterX = scatter := by
  rcases hdeg with h | h <;> subst h <;> exact ⟨rfl, rfl, rfl, rfl, rfl⟩

/-- C5 (witness). Concrete empty-shape instance over observed values
`[0, 2]`. -/
theorem C5_witness :
    (build_numeric_partial_record (ShapeFn.empty (α := ℕ)) [0, 2]).editableX = [] ∧
    (build_numeric_partial_record (ShapeFn.empty (α := ℕ)) [0, 2]).editableY = [] ∧
    (build_numeric_partial_record (ShapeFn.empty (α := ℕ)) [0, 2]).gridX = [] ∧
    (build_numeric_partial_record (ShapeFn.empty (α := ℕ)) [0, 2]).curve = [] ∧
    (build_numeric_partial_record (ShapeFn.empty (α := ℕ)) [0, 2]).scatterX = [0, 2] :=
  C5_numeric_partial_no_grid_fallback ℕ ShapeFn.empty [0, 2] (Or.inl rfl)

/-- C6 (counterexample). A refit request against the basic `igann` variant
whose edited-partials list is EMPTY is not rejected at all: the trace is the
ordinary fit-and-respond trace and contains no HTTP 400 error.  (The
emptiness test of line 267 short-circuits before the model-variant check.) -/
theorem C6_counterexample :
    build_train_steps ("bike_hourly") ("igann") false [] true true 50 =
      [Step.fitStep, Step.respondStep] ∧
    Step.httpError 400 ∉ build_train_steps ("bike_hourly") ("igann") false [] true true 50 := by
  constructor
  · rfl
  · decide

/-- C6 (amended). A refit request with a NON-empty edited-partials list whose
model variant is not the interactive one fails with HTTP 400 and nothing
after the abort runs (no edit application, no continue-fit, no centering, no
response) — but the initial fit has already been executed before the abort,
so the request is not aborted before all fitting work; a refit with an empty
edited-partials list proceeds with no 400 at all. -/
theorem C6_refit_rejection (dataset raw_mt : String) (center_shapes : Bool)
    (edited_partials : List Unit) (hasGAM canContinueFit : Bool)
    (refit_estimators : ℤ) (hds : dataset ∈ validDatasets)
    (hmt : raw_mt ≠ igannInteractiveName) (hne : edited_partials ≠ []) :
    build_train_steps dataset raw_mt center_shapes edited_partials hasGAM
        canContinueFit refit_estimators =
      [Step.fitStep, Step.httpError 400] := by
  have hds' : ¬ (dataset ∉ validDatasets) := by simpa using hds
  have hmtn : normalize_model_type raw_mt ≠ igannInteractiveName := by
    unfold normalize_model_type
    by_cases h : raw_mt = igannName ∨ raw_mt = igannInteractiveName
    · rw [if_pos h]; exact hmt
    · rw [if_neg h]; decide
  simp [build_train_steps, hds', hne, hmtn]

/-- C6 (witness). Concrete non-empty-edit refit against the basic variant:
the trace is exactly the initial fit followed by the HTTP 400 abort. -/
theorem C6_witness :
    build_train_steps ("bike_hourly") ("igann") false [()] true true 50 =
      [Step.fitStep, Step.httpError 400] :=
  C6_refit_rejection ("bike_hourly") ("igann") false [()] true true 50
    (by decide) (by decide) (by decide)

lemma sum_zipWith_sub (y t : List ℝ) (h : t.length = y.length) :
    (List.zipWith (fun a b => a - b) y t).sum = y.sum - t.sum := by
  induction y generalizing t with
  | nil =>
    cases t with
    | nil => simp
    | cons b ts => simp at h
  | cons a ys ih =>
    cases t with
    | nil => simp at h
    | cons b ts =>
      have hts : ts.length = ys.length := by simpa using h
      simp [List.zipWith, ih ts hts]
      ring

lemma sum_map_add (t : List ℝ) (c : ℝ) :
    (t.map (fun a => a + c)).sum = t.sum + (t.length : ℝ) * c := by
  induction t with
  | nil => simp
  | cons a ts ih =>
    simp [ih]
    ring

/-- C1. For a non-empty training split the regression intercept is the mean
of the residuals `y - total`, and consequently the mean of the returned
train predictions `total + intercept` equals the mean of the train targets
exactly. -/
theorem C1_regression_calibration (y_train total_train : List ℝ)
    (hne : y_train ≠ []) (hlen : total_train.length = y_train.length) :
    regression_intercept y_train total_train =
      mean (List.zipWith (fun a b => a - b) y_train total_train) ∧
    mean (regression_predictions total_train
        (regression_intercept y_train total_train)) = mean y_train := by
  have hl : y_train.length ≠ 0 := by
    have := List.length_pos.mpr hne
    omega
  have hintercept : regression_intercept y_train total_train =
      mean (List.zipWith (fun a b => a - b) y_train total_train) := by
    simp [regression_intercept, hl]
  refine ⟨hintercept, ?_⟩
  have hzlen : (List.zipWith (fun a b => a - b) y_train total_train).length =
      y_train.length := by
    rw [List.length_zipWith, hlen, min_self]
  have hnQ : ((y_train.length : ℝ)) ≠ 0 := by
    exact_mod_cast hl
  have hcval : regression_intercept y_train total_train =
      (y_train.sum - total_train.sum) / (y_train.length : ℝ) := by
    rw [hintercept]
    unfold mean
    rw [sum_zipWith_sub y_train total_train hlen, hzlen]
  unfold regression_predictions mean
  rw [sum_map_add, List.length_map, hlen, hcval]
  field_simp

/-- C1 (witness). With train targets `[1, 2]` and total contributions
`[5, 5]` the calibrated predictions have mean `3/2 = mean [1, 2]`. -/
theorem C1_witness :
    regression_intercept [1, 2] [5, 5] =
      mean (List.zipWith (fun a b => a - b) [1, 2] [5, 5]) ∧
    mean (regression_predictions [5, 5] (regression_intercept [1, 2] [5, 5])) =
      mean [1, 2] :=
  C1_regression_calibration [1, 2] [5, 5] (by simp) (by simp)

lemma sum_of_const (l : List ℝ) (c : ℝ) (h : ∀ a ∈ l, a = c) :
    l.sum = (l.length : ℝ) * c := by
  induction l with
  | nil => simp
  | cons a t ih =>
    have ha : a = c := h a (List.mem_cons_self a t)
    have ht : ∀ b ∈ t, b = c := fun b hb => h b (List.mem_cons_of_mem a hb)
    simp [ha, ih ht]
    ring

lemma mean_of_const (l : List ℝ) (c : ℝ) (hne : l ≠ []) (h : ∀ a ∈ l, a = c) :
    mean l = c := by
  have hl : (l.length : ℝ) ≠ 0 := by
    have := List.length_pos.mpr hne
    exact_mod_cast Nat.pos_iff_ne_zero.mp this
  unfold mean
  rw [sum_of_const l c h]
  field_simp

lemma ss_tot_of_const (l : List ℝ) (c : ℝ) (hne : l ≠ []) (h : ∀ a ∈ l, a = c) :
    ss_tot l = 0 := by
  unfold ss_tot
  apply List.sum_eq_zero
  intro x hx
  obtain ⟨a, ha, hax⟩ := List.mem_map.mp hx
  rw [← hax, h a ha, mean_of_const l c hne h]
  ring

/-- C9. Metrics on empty vectors are all null with count 0 (for either task
kind); regression on a non-empty constant target returns R² exactly 0 via
the zero-variance guard (no division by zero arises: the division is never
evaluated); otherwise regression returns `rmse = sqrt(mean((y-p)^2))` and
`r2 = 1 - ss_res / ss_tot`, with the count. -/
theorem C9_metrics (task : TaskKind) (y1 p1 y2 p2 : List ℝ) (c : ℝ)
    (h1 : y1 ≠ []) (hc : ∀ a ∈ y1, a = c)
    (h2 : y2 ≠ []) (hv : ss_tot y2 ≠ 0) :
    calc_metrics task [] [] = ⟨none, none, none, 0⟩ ∧
    (calc_metrics TaskKind.regression y1 p1).r2 = some 0 ∧
    (calc_metrics TaskKind.regression y1 p1).rmse =
      some (Real.sqrt (mean (List.zipWith (fun a b => (a - b) ^ 2) y1 p1))) ∧
    (calc_metrics TaskKind.regression y2 p2).r2 =
      some (1 - ss_res y2 p2 / ss_tot y2) ∧
    (calc_metrics TaskKind.regression y2 p2).rmse =
      some (Real.sqrt (mean (List.zipWith (fun a b => (a - b) ^ 2) y2 p2))) ∧
    (calc_metrics TaskKind.regression y2 p2).count = y2.length := by
  have hl1 : ¬ (y1.length = 0) := by
    have := List.length_pos.mpr h1
    omega
  have hl2 : ¬ (y2.length = 0) := by
    have := List.length_pos.mpr h2
    omega
  have hzero : ss_tot y1 = 0 := ss_tot_of_const y1 c h1 hc
  refine ⟨?_, ?_, ?_, ?_, ?_, ?_⟩
  · simp [calc_metrics]
  · simp [calc_metrics, hl1, hzero]
  · simp [calc_metrics, hl1]
  · simp [calc_metrics, hl2, hv]
  · simp [calc_metrics, hl2]
  · simp [calc_metrics, hl2]

/-- C9 (witness). Concrete metrics: empty input, the constant target
`[3, 3]` (R² = 0), and the non-constant target `[0, 1]`. -/
theorem C9_witness :
    calc_metrics TaskKind.regression [] [] = ⟨none, none, none, 0⟩ ∧
    (calc_metrics TaskKind.regression [3, 3] [0, 1]).r2 = some 0 ∧
    (calc_metrics TaskKind.regression [0, 1] [0, 0]).r2 =
      some (1 - ss_res [0, 1] [0, 0] / ss_tot [0, 1]) := by
  have hv : ss_tot ([0, 1] : List ℝ) ≠ 0 := by
    have hm : mean ([0, 1] : List ℝ) = 1/2 := by
      norm_num [mean]
    norm_num [ss_tot, hm]
  have h := C9_metrics TaskKind.regression [3, 3] [0, 1] [0, 1] [0, 0] 3
    (by simp) (by intro a ha; simp at ha; exact ha)
    (by simp) hv
  exact ⟨h.1, h.2.1, h.2.2.2.1⟩

lemma one_add_exp_pos (x : ℝ) : 0 < 1 + Real.exp x := by
  have := Real.exp_pos x
  linarith

lemma sigmoid_mono {a b : ℝ} (hab : a ≤ b) : sigmoid a ≤ sigmoid b := by
  unfold sigmoid
  have h1 := one_add_exp_pos (-b)
  have he : Real.exp (-b) ≤ Real.exp (-a) := Real.exp_le_exp.mpr (by linarith)
  have hle : 1 + Real.exp (-b) ≤ 1 + Real.exp (-a) := by linarith
  exact one_div_le_one_div_of_le h1 hle

lemma sigmoid_lipschitz {a b : ℝ} (hab : a ≤ b) :
    sigmoid b - sigmoid a ≤ b - a := by
  unfold sigmoid
  set u := Real.exp (-b) with hu
  set v := Real.exp (-a) with hv
  have hu0 : 0 < u := Real.exp_pos _
  have hv0 : 0 < v := Real.exp_pos _
  have huv : u ≤ v := Real.exp_le_exp.mpr (by linarith)
  have hstep1 : 1 / (1 + u) - 1 / (1 + v) = (v - u) / ((1 + u) * (1 + v)) := by
    field_simp
  have hden : v ≤ (1 + u) * (1 + v) := by nlinarith
  have hstep2 : (v - u) / ((1 + u) * (1 + v)) ≤ (v - u) / v :=
    div_le_div_of_nonneg_left (by linarith) hv0 hden
  have hstep3 : (v - u) / v = 1 - Real.exp (a - b) := by
    have hdiv : Real.exp (a - b) = u / v := by
      rw [hu, hv, ← Real.exp_sub]
      congr 1
      ring
    rw [hdiv, sub_div, div_self (ne_of_gt hv0)]
  have hstep4 : 1 - Real.exp (a - b) ≤ b - a := by
    have := Real.add_one_le_exp (a - b)
    linarith
  calc 1 / (1 + u) - 1 / (1 + v) = (v - u) / ((1 + u) * (1 + v)) := hstep1
    _ ≤ (v - u) / v := hstep2
    _ = 1 - Real.exp (a - b) := hstep3
    _ ≤ b - a := hstep4

lemma sum_sigmoid_mono (l : List ℝ) {c d : ℝ} (hcd : c ≤ d) :
    (l.map (fun a => sigmoid (a + c))).sum ≤ (l.map (fun a => sigmoid (a + d))).sum := by
  induction l with
  | nil => simp
  | cons a t ih =>
    simp only [List.map_cons, List.sum_cons]
    have := sigmoid_mono (show a + c ≤ a + d by linarith)
    linarith

lemma sum_sigmoid_lipschitz (l : List ℝ) {c d : ℝ} (hcd : c ≤ d) :
    (l.map (fun a => sigmoid (a + d))).sum - (l.map (fun a => sigmoid (a + c))).sum ≤
      (l.length : ℝ) * (d - c) := by
  induction l with
  | nil => simp
  | cons a t ih =>
    simp only [List.map_cons, List.sum_cons, List.length_cons]
    have := sigmoid_lipschitz (show a + c ≤ a + d by linarith)
    push_cast
    nlinarith

lemma meanProb_mono (l : List ℝ) {c d : ℝ} (hcd : c ≤ d) :
    meanProb l c ≤ meanProb l d := by
  unfold meanProb mean
  simp only [List.length_map]
  rcases Nat.eq_zero_or_pos l.length with h | h
  · simp [h]
  · have hl : (0 : ℝ) < (l.length : ℝ) := by exact_mod_cast h
    have hsum := sum_sigmoid_mono l hcd
    have hmul := mul_le_mul_of_nonneg_right hsum (le_of_lt (inv_pos.mpr hl))
    simpa [div_eq_mul_inv] using hmul

lemma meanProb_lipschitz (l : List ℝ) {c d : ℝ} (hcd : c ≤ d) :
    meanProb l d - meanProb l c ≤ d - c := by
  unfold meanProb mean
  simp only [List.length_map]
  rcases Nat.eq_zero_or_pos l.length with h | h
  · simp [h]
    linarith
  · have hl : (0 : ℝ) < (l.length : ℝ) := by exact_mod_cast h
    rw [div_sub_div_same]
    rw [div_le_iff₀ hl]
    have := sum_sigmoid_lipschitz l hcd
    linarith [this]

lemma bisectIter_succ (T : List ℝ) (t : ℝ) (n : ℕ) (lh : ℝ × ℝ) :
    bisectIter T t (n + 1) lh = bisectIter T t n (bisectStep T t lh) := rfl

lemma bisectIter_bounds (T : List ℝ) (t : ℝ) (n : ℕ) :
    ∀ lh : ℝ × ℝ, lh.1 ≤ lh.2 →
      lh.1 ≤ (bisectIter T t n lh).1 ∧
      (bisectIter T t n lh).1 ≤ (bisectIter T t n lh).2 ∧
      (bisectIter T t n lh).2 ≤ lh.2 := by
  induction n with
  | zero => intro lh h; exact ⟨le_refl _, h, le_refl _⟩
  | succ n ih =>
    intro lh h
    rw [bisectIter_succ]
    have hstep1 : lh.1 ≤ (bisectStep T t lh).1 := by
      unfold bisectStep
      by_cases hc : meanProb T ((lh.1 + lh.2) / 2) < t
      · simp only [if_pos hc]
        linarith
      · simp only [if_neg hc]
        linarith
    have hstep2 : (bisectStep T t lh).1 ≤ (bisectStep T t lh).2 := by
      unfold bisectStep
      by_cases hc : meanProb T ((lh.1 + lh.2) / 2) < t
      · simp only [if_pos hc]
        linarith
      · simp only [if_neg hc]
        linarith
    have hstep3 : (bisectStep T t lh).2 ≤ lh.2 := by
      unfold bisectStep
      by_cases hc : meanProb T ((lh.1 + lh.2) / 2) < t
      · simp only [if_pos hc]
        linarith
      · simp only [if_neg hc]
        linarith
    obtain ⟨i1, i2, i3⟩ := ih (bisectStep T t lh) hstep2
    exact ⟨le_trans hstep1 i1, i2, le_trans i3 hstep3⟩

lemma bisectIter_width (T : List ℝ) (t : ℝ) (n : ℕ) :
    ∀ lh : ℝ × ℝ,
      (bisectIter T t n lh).2 - (bisectIter T t n lh).1 = (lh.2 - lh.1) / 2 ^ n := by
  induction n with
  | zero => intro lh; simp [bisectIter]
  | succ n ih =>
    intro lh
    rw [bisectIter_succ, ih (bisectStep T t lh)]
    have hstep : (bisectStep T t lh).2 - (bisectStep T t lh).1 = (lh.2 - lh.1) / 2 := by
      unfold bisectStep
      by_cases hc : meanProb T ((lh.1 + lh.2) / 2) < t
      · simp only [if_pos hc]
        ring
      · simp only [if_neg hc]
        ring
    rw [hstep, div_div]
    congr 1
    ring

lemma bisectIter_bracket (T : List ℝ) (t : ℝ) (n : ℕ) :
    ∀ lh : ℝ × ℝ, meanProb T lh.1 < t → t ≤ meanProb T lh.2 →
      meanProb T (bisectIter T t n lh).1 < t ∧
      t ≤ meanProb T (bisectIter T t n lh).2 := by
  induction n with
  | zero => intro lh h1 h2; exact ⟨h1, h2⟩
  | succ n ih =>
    intro lh h1 h2
    rw [bisectIter_succ]
    apply ih
    · unfold bisectStep
      by_cases hc : meanProb T ((lh.1 + lh.2) / 2) < t
      · simp only [if_pos hc]
        exact hc
      · simp only [if_neg hc]
        exact h1
    · unfold bisectStep
      by_cases hc : meanProb T ((lh.1 + lh.2) / 2) < t
      · simp only [if_pos hc]
        exact h2
      · simp only [if_neg hc]
        exact not_lt.mp hc

/-- C2 (counterexample). With ten training rows of total contribution `-100`
and train targets of mean `9/10`, every candidate intercept in `[-12, 12]`
leaves the mean predicted probability below `1/90`, so after the 40
bisection iterations the mean of `sigmoid(total + intercept)` is NOT within
`2^-40 * 24` of the clamped target mean `9/10`: the bracket never contains a
solution and the claimed bound fails. -/
theorem C2_counterexample :
    ¬ (|meanProb (List.replicate 10 (-100 : ℝ))
          (classification_intercept (List.replicate 10 (-100 : ℝ))
            [1, 1, 1, 1, 1, 1, 1, 1, 1, 0]) -
        clampTargetMean [1, 1, 1, 1, 1, 1, 1, 1, 1, 0]| ≤ 24 / 2 ^ 40) := by
  have ht : clampTargetMean [1, 1, 1, 1, 1, 1, 1, 1, 1, 0] = 9/10 := by
    have hm : mean ([1, 1, 1, 1, 1, 1, 1, 1, 1, 0] : List ℝ) = 9/10 := by
      norm_num [mean]
    norm_num [clampTargetMean, hm]
  have hmp : ∀ c : ℝ, meanProb (List.replicate 10 (-100 : ℝ)) c =
      sigmoid (-100 + c) := by
    intro c
    unfold meanProb mean
    rw [List.map_replicate, List.sum_replicate, List.length_replicate, nsmul_eq_mul]
    norm_num
  set T := List.replicate 10 (-100 : ℝ) with hT
  set t := clampTargetMean [1, 1, 1, 1, 1, 1, 1, 1, 1, 0] with htdef
  have hb := bisectIter_bounds T t 40 (-12, 12) (by norm_num)
  set L := (bisectIter T t 40 (-12, 12)).1 with hL
  set H := (bisectIter T t 40 (-12, 12)).2 with hH
  have hm12 : (L + H) / 2 ≤ 12 := by
    obtain ⟨-, h2, h3⟩ := hb
    simp only [← hL, ← hH] at h2 h3 ⊢
    linarith
  have hci : classification_intercept T [1, 1, 1, 1, 1, 1, 1, 1, 1, 0] = (L + H) / 2 := by
    unfold classification_intercept
    rw [← htdef, ← hL, ← hH]
  have hsig : meanProb T ((L + H) / 2) ≤ 1/90 := by
    rw [hmp]
    have h1 : sigmoid (-100 + (L + H) / 2) ≤ sigmoid (-88) :=
      sigmoid_mono (by linarith)
    have h2 : sigmoid (-88 : ℝ) ≤ 1/90 := by
      unfold sigmoid
      have hexp : (89 : ℝ) ≤ Real.exp 88 := by
        have := Real.add_one_le_exp (88 : ℝ)
        linarith
      have hpos : (0 : ℝ) < 1 + Real.exp (-(-88 : ℝ)) := one_add_exp_pos _
      rw [div_le_div_iff₀ hpos (by norm_num)]
      norm_num
      linarith
    linarith
  rw [hci, ht] at *
  intro habs
  rw [abs_le] at habs
  have h1 : (9 : ℝ)/10 - meanProb T ((L + H) / 2) ≤ 24 / 2 ^ 40 := by linarith [habs.1]
  have h2 : (24 : ℝ) / 2 ^ 40 < 9/10 - 1/90 := by norm_num
  linarith

/-- C2 (amended). Provided the clamped target mean is bracketed by the mean
predicted probabilities at the interval ends, that is
`meanProb(total, -12) < clampedMean ≤ meanProb(total, 12)`, the midpoint
intercept returned after the 40 bisection iterations over `[-12, 12]` brings
the mean of `sigmoid(total + intercept)` within `2^-40 * 24` of the clamped
target mean (amendment: the bracket hypothesis, without which the target can
be unreachable, see the counterexample; the iteration count, bracket,
comparison and midpoint return are as the claim states, by definition of
`classification_intercept`). -/
theorem C2_classification_calibration (total_train y_train : List ℝ)
    (h1 : meanProb total_train (-12) < clampTargetMean y_train)
    (h2 : clampTargetMean y_train ≤ meanProb total_train 12) :
    |meanProb total_train (classification_intercept total_train y_train) -
        clampTargetMean y_train| ≤ 24 / 2 ^ 40 := by
  set t := clampTargetMean y_train with htdef
  set L := (bisectIter total_train t 40 (-12, 12)).1 with hL
  set H := (bisectIter total_train t 40 (-12, 12)).2 with hH
  have hci : classification_intercept total_train y_train = (L + H) / 2 := by
    unfold classification_intercept
    rw [← htdef, ← hL, ← hH]
  have hb := bisectIter_bounds total_train t 40 (-12, 12) (by norm_num)
  have hw := bisectIter_width total_train t 40 (-12, 12)
  have hbr := bisectIter_bracket total_train t 40 (-12, 12)
    (by simpa using h1) (by simpa using h2)
  rw [← hL, ← hH] at hw
  obtain ⟨-, hLH, -⟩ := hb
  simp only [← hL, ← hH] at hLH
  obtain ⟨hfL, hfH⟩ := hbr
  simp only [← hL, ← hH] at hfL hfH
  have hwv : H - L = 24 / 2 ^ 40 := by
    rw [hw]
    norm_num
  have hm1 : L ≤ (L + H) / 2 := by linarith
  have hm2 : (L + H) / 2 ≤ H := by linarith
  have hf1 : meanProb total_train L ≤ meanProb total_train ((L + H) / 2) :=
    meanProb_mono total_train hm1
  have hf2 : meanProb total_train ((L + H) / 2) ≤ meanProb total_train H :=
    meanProb_mono total_train hm2
  have hlip : meanProb total_train H - meanProb total_train L ≤ H - L :=
    meanProb_lipschitz total_train hLH
  rw [hci, abs_le]
  constructor
  · linarith
  · linarith

/-- C2 (witness). A single training row with zero total contribution and
targets `[0, 1]` (clamped mean `1/2`): the bracket condition holds since
`sigmoid(-12) < 1/2 ≤ sigmoid(12)`, and the calibrated mean probability is
within `2^-40 * 24` of `1/2`. -/
theorem C2_witness :
    |meanProb [(0 : ℝ)] (classification_intercept [(0 : ℝ)] [0, 1]) -
        clampTargetMean [0, 1]| ≤ 24 / 2 ^ 40 := by
  have hc : clampTargetMean [(0 : ℝ), 1] = 1/2 := by
    have hm : mean ([0, 1] : List ℝ) = 1/2 := by
      norm_num [mean]
    norm_num [clampTargetMean, hm]
  have hmp : ∀ c : ℝ, meanProb [(0 : ℝ)] c = sigmoid c := by
    intro c
    unfold meanProb mean
    norm_num
  apply C2_classification_calibration
  · rw [hc, hmp]
    unfold sigmoid
    have hexp : (1 : ℝ) < Real.exp 12 := Real.one_lt_exp_iff.mpr (by norm_num)
    have hpos : (0 : ℝ) < 1 + Real.exp (-(-12 : ℝ)) := one_add_exp_pos _
    rw [div_lt_div_iff₀ hpos (by norm_num)]
    norm_num
    linarith
  · rw [hc, hmp]
    unfold sigmoid
    have hexp : Real.exp (-12 : ℝ) ≤ 1 := Real.exp_le_one_iff.mpr (by norm_num)
    have hpos : (0 : ℝ) < 1 + Real.exp (-(12 : ℝ)) := one_add_exp_pos _
    rw [div_le_div_iff₀ (by norm_num) hpos]
    norm_num
    linarith

end Trainer
